import Mathlib

/-!
A shallow embedding of the infinite-loop detector runtime of js-slang
(`src/infiniteLoops/runtime.ts`), together with proofs checking the
natural-language specification against it.

The runtime file itself is embedded faithfully, function by function.
The modules it imports (`./state`, `./symbolic`, `./detect`,
`../stdlib/list`) are not part of the sources under inspection; the
operations the runtime uses from them are modelled from the
specification, each such definition carrying a doc comment starting
with `Modelled from the spec:`.

Effectful TypeScript functions become explicit state-passing
functions.  A function that may `throw` returns
`Except RtError α × State`: JavaScript exceptions unwind control but
leave all mutations to the shared state object in place, so the state
component is always returned.  Invocations of external analysis
routines (the Dispatch Policy's call into `checkForInfiniteLoop`, and
`saveArgsInTransition`) are additionally recorded in ghost logs inside
the state so that theorems can speak about when and with which
arguments they happen.
-/

namespace JsSlang

/-- Literal payloads of symbolic AST nodes. -/
inductive LitVal where
  | num (n : Int)
  | str (s : String)
  | bool (b : Bool)
  | nullL
deriving DecidableEq, Repr

/-- Symbolic expressions: estree AST fragments as used by the detector
(literals, identifiers, unary and binary operations). -/
inductive SymExpr where
  | literal (v : LitVal)
  | identifier (name : String)
  | unary (op : String) (arg : SymExpr)
  | binary (op : String) (l r : SymExpr)
deriving DecidableEq, Repr

/-- Runtime values.  Pairs are the two-element arrays of Source lists;
a JavaScript function is modelled by the (pure) value it returns when
called (`funV ret`), with `nothingFn` the distinguished no-op function
of the runtime.  `hybridV` is a hybrid of kind `'value'` (concrete
result, symbolic expression, optional recorded negation, invalid
flag); `hybridArr` is a hybrid wrapping the concrete array
`pairV hd tl` (a hybrid whose `type` is not `'value'`). -/
inductive RVal where
  | undef
  | nullV
  | boolV (b : Bool)
  | numV (n : Int)
  | strV (s : String)
  | pairV (hd tl : RVal)
  | funV (ret : RVal)
  | nothingFn
  | hybridV (conc : RVal) (symb : SymExpr) (neg : Option SymExpr) (invalid : Bool)
  | hybridArr (hd tl : RVal)
deriving DecidableEq, Repr

namespace RVal

/-- `typeof v === 'function'`. -/
def isFn : RVal → Bool
  | funV _ => true
  | nothingFn => true
  | _ => false

/-- Modelled from the spec: a value is a hybrid when it carries a
symbolic layer (`sym.isHybrid`). -/
def isHybrid : RVal → Bool
  | hybridV _ _ _ _ => true
  | hybridArr _ _ => true
  | _ => false

/-- JavaScript truthiness of a value. -/
def truthy : RVal → Bool
  | undef => false
  | nullV => false
  | boolV b => b
  | numV n => n != 0
  | strV s => s != ""
  | _ => true

end RVal

/-- Modelled from the spec: `sym.shallowConcretize` strips the
symbolic layer of a hybrid, returning the underlying concrete value;
non-hybrids pass through unchanged. -/
def shallowConcretize : RVal → RVal
  | RVal.hybridV conc _ _ _ => conc
  | RVal.hybridArr hd tl => RVal.pairV hd tl
  | v => v

/-- Modelled from the spec: `sym.deepConcretizeInplace` recursively
strips symbolism from composite structures (list cells); functions are
left alone. -/
def deepConcretize : RVal → RVal
  | RVal.hybridV conc _ _ _ => deepConcretize conc
  | RVal.hybridArr hd tl => RVal.pairV (deepConcretize hd) (deepConcretize tl)
  | RVal.pairV hd tl => RVal.pairV (deepConcretize hd) (deepConcretize tl)
  | v => v

/-- Modelled from the spec: `sym.hybridizeNamed` wraps a concrete
value read from a named variable into symbolic form, attaching an
identifier expression referencing the name; functions and `undefined`
are never hybridized, values that are already hybrid are returned
unchanged, and arrays (pairs) are wrapped as array hybrids. -/
def hybridizeNamed (name : String) (v : RVal) : RVal :=
  match v with
  | RVal.funV _ => v
  | RVal.nothingFn => v
  | RVal.undef => v
  | RVal.hybridV _ _ _ _ => v
  | RVal.hybridArr _ _ => v
  | RVal.pairV hd tl => RVal.hybridArr hd tl
  | c => RVal.hybridV c (SymExpr.identifier name) none false

/-- Modelled from the spec: `stdList.is_null` tests for the empty
list. -/
def stdIsNull : RVal → Bool
  | RVal.nullV => true
  | _ => false

/-- Modelled from the spec: `stdList.is_pair` tests for a list cell
(two-element array). -/
def stdIsPair : RVal → Bool
  | RVal.pairV _ _ => true
  | _ => false

/-- `xs[1]` of a pair, `undefined` otherwise (as the runtime computes
the tail of a maybe-pair). -/
def tailOfIfPair : RVal → Option RVal
  | RVal.pairV _ tl => some tl
  | _ => none

/-- Calling a JavaScript function value with any arguments: `funV ret`
returns its stored result, the no-op function returns itself;
non-functions are not callable. -/
def callFn : RVal → Option RVal
  | RVal.funV ret => some ret
  | RVal.nothingFn => some RVal.nothingFn
  | _ => none

/-- Errors thrown inside the runtime: plain JavaScript `Error`s
(carrying their message, e.g. `Error('timeout')`) and
`InfiniteLoopError` diagnostics raised by the Non-Termination
Inference (carrying a message and an optional source location,
modelled from the spec since `detect.ts` is external). -/
inductive RtError where
  | plainError (msg : String)
  | infiniteLoopError (msg : String) (location : Option Nat)
deriving DecidableEq, Repr

/-- `error instanceof InfiniteLoopError`. -/
def RtError.isInfiniteLoopError : RtError → Bool
  | RtError.infiniteLoopError _ _ => true
  | _ => false

/-- One recorded path event: `state.savePath(expr)` or
`state.setInvalidPath()`. -/
inductive PathEvent where
  | saved (e : SymExpr)
  | invalid
deriving DecidableEq, Repr

/-- Association-list lookup (JavaScript `Map.get`). -/
def lookupKV {α : Type} (l : List (String × α)) (k : String) : Option α :=
  (l.find? (fun p => p.1 == k)).map Prod.snd

/-- Association-list update (JavaScript `Map.set`: overwrite in place
or append). -/
def setKV {α : Type} : List (String × α) → String → α → List (String × α)
  | [], k, v => [(k, v)]
  | p :: rest, k, v => if p.1 == k then (k, v) :: rest else p :: setKV rest k v

/-- The mutable per-run execution state (`st.State`), modelled from
the spec, restricted to the fields the runtime file uses.  Stack
frames are represented by the numeric positions `newStackFrame`
returns, handed out by `stackFrameCounter`.  `detectVerdict` is the
Non-Termination Inference oracle: the external `checkForInfiniteLoop`
either certifies non-termination (raises) or lets execution continue.
`dispatchLog`, `checkLog`, `transitionLog` and `cleanUps` are ghost
observation logs. -/
structure State where
  threshold : Nat
  streamThreshold : Nat
  timedOut : Bool
  variablesToReset : List String
  variablesModified : List (String × RVal)
  functionWasPassedAsArgument : Bool
  streamMode : Bool
  streamLastFunction : Option String
  streamCounts : List (String × Nat)
  functionTrackers : List (String × List Nat)
  functionNameStack : List String
  stackFrameCounter : Nat
  lastLocation : Option Nat
  pathLog : List PathEvent
  dispatchLog : List (List Nat × Option String)
  checkLog : List (List Nat × Option String)
  transitionLog : List (List (String × RVal) × List Nat)
  cleanUps : Nat
  detectVerdict : List Nat → Option String → Bool

/-- A default state for concrete evaluation: thresholds as quantified
in each theorem, empty histories, inference oracle that never
certifies. -/
def mkState (threshold streamThreshold : Nat) : State where
  threshold := threshold
  streamThreshold := streamThreshold
  timedOut := false
  variablesToReset := []
  variablesModified := []
  functionWasPassedAsArgument := false
  streamMode := false
  streamLastFunction := none
  streamCounts := []
  functionTrackers := []
  functionNameStack := []
  stackFrameCounter := 0
  lastLocation := none
  pathLog := []
  dispatchLog := []
  checkLog := []
  transitionLog := []
  cleanUps := 0
  detectVerdict := fun _ _ => false

/-- Modelled from the spec: the Non-Termination Inference
(`checkForInfiniteLoop` from `detect.ts`): inspects the recorded stack
positions and either certifies non-termination (raising an
`InfiniteLoopError`) or returns and lets execution continue.  The
verdict itself is the state's oracle; the invocation is recorded in
the ghost `checkLog`. -/
def checkForInfiniteLoop (stackPositions : List Nat) (functionName : Option String)
    (s : State) : Except RtError Unit × State :=
  let s' := { s with checkLog := (stackPositions, functionName) :: s.checkLog }
  if s.detectVerdict stackPositions functionName then
    (Except.error (RtError.infiniteLoopError "infinite loop" s.lastLocation), s')
  else
    (Except.ok (), s')

/-- The `while` loop of `dispatchIfMeetsThreshold`, with explicit
fuel: while `checkpoint <= stackPositions.length`, invoke the check on
an exact match, then double the checkpoint. -/
def dispatchGo : Nat → List Nat → Option String → Nat → State → Except RtError Unit × State
  | 0, _, _, _, s => (Except.ok (), s)
  | fuel + 1, sp, fname, checkpoint, s =>
    if checkpoint ≤ sp.length then
      if sp.length = checkpoint then
        match checkForInfiniteLoop sp fname s with
        | (Except.error e, s') => (Except.error e, s')
        | (Except.ok _, s') => dispatchGo fuel sp fname (checkpoint * 2) s'
      else dispatchGo fuel sp fname (checkpoint * 2) s
    else (Except.ok (), s)

/-- `dispatchIfMeetsThreshold(stackPositions, state, functionName)`:
starting from `checkpoint = state.threshold`, runs the doubling loop.
The policy invocation itself is recorded in the ghost `dispatchLog`.
The fuel `stackPositions.length + 1` never runs out when
`state.threshold ≥ 1` (the checkpoint at least doubles each round). -/
def dispatchIfMeetsThreshold (stackPositions : List Nat) (s : State)
    (functionName : Option String) : Except RtError Unit × State :=
  dispatchGo (stackPositions.length + 1) stackPositions functionName s.threshold
    { s with dispatchLog := (stackPositions, functionName) :: s.dispatchLog }

theorem dispatchGo_gt (fuel : Nat) (sp : List Nat) (fname : Option String)
    (checkpoint : Nat) (s : State) (h : sp.length < checkpoint) :
    dispatchGo fuel sp fname checkpoint s = (Except.ok (), s) := by
  cases fuel with
  | zero => rfl
  | succ n =>
    simp only [dispatchGo]
    rw [if_neg (by omega)]

theorem dispatchGo_spec (fuel : Nat) (sp : List Nat) (fname : Option String)
    (checkpoint : Nat) (s : State) (hc : 1 ≤ checkpoint)
    (hfuel : sp.length < checkpoint + fuel) :
    (∃ k : Nat, sp.length = checkpoint * 2 ^ k) →
      ((dispatchGo fuel sp fname checkpoint s).2.checkLog = (sp, fname) :: s.checkLog) := by
  induction fuel generalizing checkpoint s with
  | zero =>
    rintro ⟨k, hk⟩
    have : checkpoint ≤ checkpoint * 2 ^ k := Nat.le_mul_of_pos_right _ (Nat.pos_pow_of_pos k (by norm_num))
    omega
  | succ n ih =>
    rintro ⟨k, hk⟩
    have hle : checkpoint ≤ sp.length := by
      have : checkpoint ≤ checkpoint * 2 ^ k := Nat.le_mul_of_pos_right _ (Nat.pos_pow_of_pos k (by norm_num))
      omega
    simp only [dispatchGo, if_pos hle]
    by_cases heq : sp.length = checkpoint
    · rw [if_pos heq]
      unfold checkForInfiniteLoop
      by_cases hv : s.detectVerdict sp fname
      · simp [hv]
      · simp only [hv, if_neg, Bool.false_eq_true, not_false_eq_true, if_neg hv]
        rw [dispatchGo_gt]
        omega
    · rw [if_neg heq]
      apply ih
      · omega
      · omega
      · refine ⟨k - 1, ?_⟩
        cases k with
        | zero => omega
        | succ m =>
          simp only [Nat.succ_sub_one]
          rw [hk, pow_succ]
          ring

theorem dispatchGo_spec_none (fuel : Nat) (sp : List Nat) (fname : Option String)
    (checkpoint : Nat) (s : State) (hc : 1 ≤ checkpoint) :
    (¬ ∃ k : Nat, sp.length = checkpoint * 2 ^ k) →
      dispatchGo fuel sp fname checkpoint s = (Except.ok (), s) := by
  induction fuel generalizing checkpoint s with
  | zero => intro _; rfl
  | succ n ih =>
    intro hno
    by_cases hle : checkpoint ≤ sp.length
    · have heq : sp.length ≠ checkpoint := by
        intro h
        exact hno ⟨0, by simpa using h⟩
      simp only [dispatchGo, if_pos hle, if_neg heq]
      apply ih
      · omega
      · rintro ⟨k, hk⟩
        exact hno ⟨k + 1, by rw [hk, pow_succ]; ring⟩
    · exact dispatchGo_gt _ _ _ _ _ (by omega)

/-- Modelled from the spec: `state.savePath(expr)` records the
symbolic expression of the boolean condition most recently
evaluated. -/
def State.savePath (s : State) (e : SymExpr) : State :=
  { s with pathLog := PathEvent.saved e :: s.pathLog }

/-- Modelled from the spec: `state.setInvalidPath()` invalidates path
tracking for the current window. -/
def State.setInvalidPath (s : State) : State :=
  { s with pathLog := PathEvent.invalid :: s.pathLog }

/-- `create.unaryExpression('!', expr)`. -/
def unaryExpression (op : String) (e : SymExpr) : SymExpr :=
  SymExpr.unary op e

/-- Whether a symbolic expression is a `Literal` AST node
(`expr.type === 'Literal'`). -/
def SymExpr.isLiteral : SymExpr → Bool
  | SymExpr.literal _ => true
  | _ => false

/-- `saveBoolIfHybrid(value, state)` (runtime.ts, lines 47-65): saves
the boolean value's path condition if it is a value-hybrid, else sets
the path to invalid; boolean-literal expressions are not saved; always
returns a value with the concrete truthiness. -/
def saveBoolIfHybrid (value : RVal) (s : State) : RVal × State :=
  match value with
  | RVal.hybridV conc symb neg invalid =>
    if invalid then
      (shallowConcretize (RVal.hybridV conc symb neg invalid), s.setInvalidPath)
    else if !symb.isLiteral then
      let theExpr := if conc.truthy then symb
        else match neg with
          | some n => n
          | none => unaryExpression "!" symb
      (shallowConcretize (RVal.hybridV conc symb neg invalid), s.savePath theExpr)
    else
      (shallowConcretize (RVal.hybridV conc symb neg invalid), s)
  | v => (v, s.setInvalidPath)

/-- C1: for every call `dispatchIfMeetsThreshold(history, state, name)`
with `state.threshold ≥ 1`, the non-termination check
(`checkForInfiniteLoop`) is invoked if and only if `history.length`
equals `state.threshold * 2 ^ k` for some `k ≥ 0`; when invoked it
runs exactly once (the check log gains exactly one entry) and receives
the full accumulated history; otherwise the log is untouched and the
call returns normally. -/
theorem dispatch_checks_iff_power_of_two_multiple
    (sp : List Nat) (s : State) (fname : Option String) (ht : 1 ≤ s.threshold) :
    ((∃ k : Nat, sp.length = s.threshold * 2 ^ k) →
        (dispatchIfMeetsThreshold sp s fname).2.checkLog = (sp, fname) :: s.checkLog)
    ∧ ((¬ ∃ k : Nat, sp.length = s.threshold * 2 ^ k) →
        (dispatchIfMeetsThreshold sp s fname).2.checkLog = s.checkLog
        ∧ (dispatchIfMeetsThreshold sp s fname).1 = Except.ok ()) := by
  constructor
  · intro hex
    unfold dispatchIfMeetsThreshold
    exact dispatchGo_spec _ _ _ _ _ ht (by omega) hex
  · intro hno
    unfold dispatchIfMeetsThreshold
    rw [dispatchGo_spec_none _ _ _ _ _ ht hno]
    exact ⟨rfl, rfl⟩

/-- Witness for C1: with threshold 2 and a history of length 4 = 2·2¹,
exactly one check is recorded, over the full history. -/
theorem dispatch_checks_iff_power_of_two_multiple_witness :
    (dispatchIfMeetsThreshold [0, 1, 2, 3] (mkState 2 5) (some "f")).2.checkLog
      = [([0, 1, 2, 3], some "f")] :=
  (dispatch_checks_iff_power_of_two_multiple [0, 1, 2, 3] (mkState 2 5) (some "f")
    (by decide)).1 ⟨1, by decide⟩

/-- C4: `saveBoolIfHybrid(v, s)` always returns a value with the
concrete truth value of `v` (branch decisions are unaffected); an
invalid-path value-hybrid records the path invalid; a valid
value-hybrid with non-literal symbolic expression records the
expression as path condition when its concrete value is truthy, and
the recorded negation (or the constructed `!`-expression) when falsy;
a non-hybrid records the path invalid and is returned unchanged. -/
theorem saveBoolIfHybrid_spec (v : RVal) (s : State) :
    ((saveBoolIfHybrid v s).1.truthy = (shallowConcretize v).truthy)
    ∧ (∀ conc symb neg, v = RVal.hybridV conc symb neg true →
        saveBoolIfHybrid v s = (conc, s.setInvalidPath))
    ∧ (∀ conc symb neg, v = RVal.hybridV conc symb neg false → symb.isLiteral = false →
        saveBoolIfHybrid v s =
          (conc, s.savePath (if conc.truthy then symb
            else match neg with
              | some n => n
              | none => unaryExpression "!" symb)))
    ∧ (v.isHybrid = false → saveBoolIfHybrid v s = (v, s.setInvalidPath)) := by
  refine ⟨?_, ?_, ?_, ?_⟩
  · cases v with
    | hybridV conc symb neg invalid =>
      by_cases hi : invalid
      · subst hi; simp [saveBoolIfHybrid, shallowConcretize]
      · have hi' : invalid = false := by simpa using hi
        subst hi'
        by_cases hl : symb.isLiteral
        · simp [saveBoolIfHybrid, shallowConcretize, hl]
        · simp [saveBoolIfHybrid, shallowConcretize, hl]
    | hybridArr hd tl => simp [saveBoolIfHybrid, shallowConcretize, RVal.truthy]
    | undef => rfl
    | nullV => rfl
    | boolV b => rfl
    | numV n => rfl
    | strV t => rfl
    | pairV hd tl => rfl
    | funV r => rfl
    | nothingFn => rfl
  · rintro conc symb neg rfl
    simp [saveBoolIfHybrid, shallowConcretize]
  · rintro conc symb neg rfl hl
    simp [saveBoolIfHybrid, shallowConcretize, hl]
  · intro hnh
    cases v with
    | hybridV conc symb neg invalid => simp [RVal.isHybrid] at hnh
    | hybridArr hd tl => simp [RVal.isHybrid] at hnh
    | undef => rfl
    | nullV => rfl
    | boolV b => rfl
    | numV n => rfl
    | strV t => rfl
    | pairV hd tl => rfl
    | funV r => rfl
    | nothingFn => rfl

/-- Witness for C4: a falsy valid hybrid of `x < 10` with no recorded
negation saves the constructed negated guard and returns the concrete
value. -/
theorem saveBoolIfHybrid_spec_witness :
    saveBoolIfHybrid
        (RVal.hybridV (RVal.boolV false)
          (SymExpr.binary "<" (SymExpr.identifier "x") (SymExpr.literal (LitVal.num 10)))
          none false)
        (mkState 2 5)
      = (RVal.boolV false, (mkState 2 5).savePath
          (unaryExpression "!"
            (SymExpr.binary "<" (SymExpr.identifier "x") (SymExpr.literal (LitVal.num 10))))) := by
  have h := (saveBoolIfHybrid_spec
    (RVal.hybridV (RVal.boolV false)
      (SymExpr.binary "<" (SymExpr.identifier "x") (SymExpr.literal (LitVal.num 10)))
      none false)
    (mkState 2 5)).2.2.1
  exact h _ _ _ rfl rfl

/-- Modelled from the spec: `state.getLastFunctionName()` is the name
of the innermost active function. -/
def State.getLastFunctionName (s : State) : String :=
  s.functionNameStack.headD ""

/-- The probe loop of `testIfInfiniteStream` (runtime.ts, lines
140-152): for `i` from `0` to `state.threshold`, stop on the empty
list, otherwise force the tail when it is a function and continue;
returns the number of tail elements forced.  The fuel is
`state.threshold + 1`, the exact number of loop iterations. -/
def probeLoop : Nat → RVal → Nat
  | 0, _ => 0
  | fuel + 1, next =>
    if stdIsNull next then 0
    else
      match tailOfIfPair next with
      | some t =>
        match callFn t with
        | some r => 1 + probeLoop fuel (shallowConcretize r)
        | none => 0
      | none => 0

/-- `testIfInfiniteStream(stream, state)` (runtime.ts, lines
139-154): runs the probe loop and then unconditionally throws
`Error('timeout')` — the function has no normal exit.  The result is
the thrown error together with the number of tail elements forced. -/
def testIfInfiniteStream (s : State) (stream : RVal) : RtError × Nat :=
  (RtError.plainError "timeout", probeLoop (s.threshold + 1) stream)

/-- The stream branch of `builtinSpecialCases.is_null` (runtime.ts,
lines 162-177), entered when the argument's tail is a function;
`theTailResult` is the value `theTail()` would produce.  Returns the
outcome together with the number of tail elements forced during the
call. -/
def isNullStreamCase (theTailResult : RVal) (s : State) :
    Except RtError (RVal × State) × Nat :=
  let lastFunction := s.getLastFunctionName
  if s.streamMode && (s.streamLastFunction == some lastFunction) then
    let r := testIfInfiniteStream s (shallowConcretize theTailResult)
    (Except.error r.1, 1 + r.2)
  else
    let count := (lookupKV s.streamCounts lastFunction).getD 1
    let s1 :=
      if s.streamThreshold < count then
        { s with streamMode := true, streamLastFunction := some lastFunction }
      else s
    (Except.ok (RVal.undef,
      { s1 with streamCounts := setKV s1.streamCounts lastFunction (count + 1) }), 0)

/-- `builtinSpecialCases.is_null(maybeHybrid, state)` (runtime.ts,
lines 157-182): concretize the argument; when it is a pair whose tail
is a function (a stream), run the stream heuristic, returning
`undefined` in the counting branch; otherwise return the concrete
null-test.  The second component counts the tail elements forced. -/
def builtinIsNull (maybeHybrid : RVal) (s : State) :
    Except RtError (RVal × State) × Nat :=
  let xs := shallowConcretize maybeHybrid
  let conc := stdIsNull xs
  match tailOfIfPair xs with
  | some (RVal.funV ret) => isNullStreamCase ret s
  | some RVal.nothingFn => isNullStreamCase RVal.nothingFn s
  | _ => (Except.ok (RVal.boolV conc, s), 0)

theorem probeLoop_le (fuel : Nat) (v : RVal) : probeLoop fuel v ≤ fuel := by
  induction fuel generalizing v with
  | zero => simp [probeLoop]
  | succ n ih =>
    simp only [probeLoop]
    by_cases h : stdIsNull v
    · simp [h]
    · simp only [h, if_false, Bool.false_eq_true]
      cases htl : tailOfIfPair v with
      | none => simp only [htl]; omega
      | some t =>
        cases hc : callFn t with
        | none => simp only [htl, hc]; omega
        | some r =>
          simp only [htl, hc]
          have := ih (shallowConcretize r)
          omega

/-- C9: `testIfInfiniteStream` never returns normally: its only exit
is throwing `Error('timeout')`, after forcing at most
`state.threshold + 1` tail elements, regardless of whether the probed
stream reaches null or stops being a stream; consequently, in stream
mode for the current function, a null-test on a stream always aborts
with that timeout error. -/
theorem testIfInfiniteStream_always_throws (s : State) (stream : RVal) :
    (testIfInfiniteStream s stream).1 = RtError.plainError "timeout"
    ∧ (testIfInfiniteStream s stream).2 ≤ s.threshold + 1
    ∧ (∀ maybeHybrid t, s.streamMode = true →
        s.streamLastFunction = some s.getLastFunctionName →
        tailOfIfPair (shallowConcretize maybeHybrid) = some t → t.isFn = true →
        (builtinIsNull maybeHybrid s).1 = Except.error (RtError.plainError "timeout")) := by
  refine ⟨rfl, probeLoop_le _ _, ?_⟩
  intro maybeHybrid t hm hl htl hfn
  have hbr : (s.streamMode && (s.streamLastFunction == some s.getLastFunctionName)) = true := by
    rw [hm, hl]; simp
  cases t with
  | funV ret =>
    simp only [builtinIsNull, htl, isNullStreamCase, hbr, if_true]
    rfl
  | nothingFn =>
    simp only [builtinIsNull, htl, isNullStreamCase, hbr, if_true]
    rfl
  | undef => simp [RVal.isFn] at hfn
  | nullV => simp [RVal.isFn] at hfn
  | boolV b => simp [RVal.isFn] at hfn
  | numV n => simp [RVal.isFn] at hfn
  | strV str => simp [RVal.isFn] at hfn
  | pairV hd tl => simp [RVal.isFn] at hfn
  | hybridV c sy ng iv => simp [RVal.isFn] at hfn
  | hybridArr hd tl => simp [RVal.isFn] at hfn

/-- A concrete stream state in stream mode for function `"f"`. -/
def streamModeState : State :=
  { mkState 1 5 with
      streamMode := true
      streamLastFunction := some "f"
      functionNameStack := ["f"] }

/-- A finite chain of stream cells of the given length ending in the
empty list: each tail is a function producing the next cell. -/
def chainStream : Nat → RVal
  | 0 => RVal.nullV
  | n + 1 => RVal.pairV (RVal.numV 0) (RVal.funV (chainStream n))

/-- Witness for C9: probing a terminating three-cell stream under
threshold 1 still throws the timeout error. -/
theorem testIfInfiniteStream_always_throws_witness :
    (builtinIsNull (chainStream 3) streamModeState).1
      = Except.error (RtError.plainError "timeout") :=
  (testIfInfiniteStream_always_throws streamModeState (chainStream 3)).2.2
    (chainStream 3) (RVal.funV (chainStream 2)) rfl rfl rfl rfl

theorem lookupKV_setKV_self {α : Type} (l : List (String × α)) (k : String) (v : α) :
    lookupKV (setKV l k v) k = some v := by
  induction l with
  | nil => simp [setKV, lookupKV]
  | cons p rest ih =>
    by_cases h : p.1 == k
    · simp [setKV, h, lookupKV]
    · have h' : (p.1 == k) = false := by simpa using h
      simp only [setKV, h', Bool.false_eq_true, if_false]
      simp only [lookupKV, List.find?] at ih ⊢
      rw [h']
      exact ih

/-- Proof-side accessor: the state carried by a successful outcome,
or the given default. -/
def okStateOr (r : Except RtError (RVal × State)) (dflt : State) : State :=
  match r with
  | Except.ok p => p.2
  | Except.error _ => dflt

/-- Counterexample to C3 as stated: in stream mode for the current
function with `threshold = 1`, the null-test on a six-cell stream
forces 3 tail elements — more than the `state.threshold` the claim
allows — and aborts with the timeout error instead of recording a
counter increment. -/
theorem isNull_stream_forces_more_than_threshold :
    (builtinIsNull (chainStream 6) streamModeState).2 = 3
    ∧ streamModeState.threshold = 1
    ∧ ¬ ((builtinIsNull (chainStream 6) streamModeState).2 ≤ streamModeState.threshold)
    ∧ (builtinIsNull (chainStream 6) streamModeState).1
        = Except.error (RtError.plainError "timeout") := by
  refine ⟨by decide, by decide, by decide, rfl⟩

/-- C3 (amended): for a null-test applied to a stream: while not in
stream mode for the current function, the per-function counter
(defaulting to 1) increases by one and stream mode for that function
is entered exactly when the pre-increment count exceeds
`state.streamThreshold`; on a null-test in stream mode for the same
function, up to `state.threshold + 2` tail elements are forced (one
immediately, at most `state.threshold + 1` in the probe) and a
timeout error is raised directly, bypassing the trend-classification
algorithm. -/
theorem isNull_stream_counter_spec (v : RVal) (s : State) (t : RVal)
    (htl : tailOfIfPair (shallowConcretize v) = some t) (hfn : t.isFn = true) :
    (((s.streamMode && (s.streamLastFunction == some s.getLastFunctionName)) = false) →
      (builtinIsNull v s).1
        = Except.ok (RVal.undef, okStateOr (builtinIsNull v s).1 s)
      ∧ lookupKV (okStateOr (builtinIsNull v s).1 s).streamCounts s.getLastFunctionName
          = some ((lookupKV s.streamCounts s.getLastFunctionName).getD 1 + 1)
      ∧ (((okStateOr (builtinIsNull v s).1 s).streamMode = true
            ∧ (okStateOr (builtinIsNull v s).1 s).streamLastFunction
                = some s.getLastFunctionName)
          ↔ s.streamThreshold < (lookupKV s.streamCounts s.getLastFunctionName).getD 1))
    ∧ ((s.streamMode = true ∧ s.streamLastFunction = some s.getLastFunctionName) →
      (builtinIsNull v s).1 = Except.error (RtError.plainError "timeout")
      ∧ (builtinIsNull v s).2 ≤ s.threshold + 2) := by
  have hmain : ∀ r : RVal,
      (((s.streamMode && (s.streamLastFunction == some s.getLastFunctionName)) = false) →
        (isNullStreamCase r s).1
          = Except.ok (RVal.undef, okStateOr (isNullStreamCase r s).1 s)
        ∧ lookupKV (okStateOr (isNullStreamCase r s).1 s).streamCounts s.getLastFunctionName
            = some ((lookupKV s.streamCounts s.getLastFunctionName).getD 1 + 1)
        ∧ (((okStateOr (isNullStreamCase r s).1 s).streamMode = true
              ∧ (okStateOr (isNullStreamCase r s).1 s).streamLastFunction
                  = some s.getLastFunctionName)
            ↔ s.streamThreshold < (lookupKV s.streamCounts s.getLastFunctionName).getD 1))
      ∧ ((s.streamMode = true ∧ s.streamLastFunction = some s.getLastFunctionName) →
        (isNullStreamCase r s).1 = Except.error (RtError.plainError "timeout")
        ∧ (isNullStreamCase r s).2 ≤ s.threshold + 2) := by
    intro r
    constructor
    · intro hbr
      simp only [isNullStreamCase, hbr, Bool.false_eq_true, if_false]
      by_cases hcnt : s.streamThreshold < (lookupKV s.streamCounts s.getLastFunctionName).getD 1
      · rw [if_pos hcnt]
        refine ⟨rfl, lookupKV_setKV_self _ _ _, ?_⟩
        simp [okStateOr, hcnt]
      · rw [if_neg hcnt]
        refine ⟨rfl, lookupKV_setKV_self _ _ _, ?_⟩
        simp only [okStateOr, hcnt, iff_false]
        rintro ⟨hm, hl⟩
        rw [hm, hl] at hbr
        simp at hbr
    · rintro ⟨hm, hl⟩
      have hbr : (s.streamMode && (s.streamLastFunction == some s.getLastFunctionName)) = true := by
        rw [hm, hl]; simp
      simp only [isNullStreamCase, hbr, if_true]
      refine ⟨rfl, ?_⟩
      have := probeLoop_le (s.threshold + 1) (shallowConcretize r)
      simp only [testIfInfiniteStream]
      omega
  cases t with
  | funV ret =>
    simpa only [builtinIsNull, htl] using hmain ret
  | nothingFn =>
    simpa only [builtinIsNull, htl] using hmain RVal.nothingFn
  | undef => simp [RVal.isFn] at hfn
  | nullV => simp [RVal.isFn] at hfn
  | boolV b => simp [RVal.isFn] at hfn
  | numV n => simp [RVal.isFn] at hfn
  | strV str => simp [RVal.isFn] at hfn
  | pairV hd tl => simp [RVal.isFn] at hfn
  | hybridV c sy ng iv => simp [RVal.isFn] at hfn
  | hybridArr hd tl => simp [RVal.isFn] at hfn

/-- A concrete state outside stream mode, with innermost function
`"g"` and stream threshold 2. -/
def countingState : State :=
  { mkState 1 2 with functionNameStack := ["g"] }

/-- Witness for the amended C3: the first null-test on a stream in
function `"g"` stores counter value 2 (the default 1 plus one). -/
theorem isNull_stream_counter_spec_witness :
    lookupKV (okStateOr (builtinIsNull (chainStream 4) countingState).1
        countingState).streamCounts "g" = some 2 :=
  ((isNull_stream_counter_spec (chainStream 4) countingState
      (RVal.funV (chainStream 3)) rfl rfl).1 (by decide)).2.1

/-- `nothingFunction(...args)` (runtime.ts, lines 201-203): ignores
its arguments and returns the no-op function value itself. -/
def nothingFunction : List RVal → RVal := fun _ => RVal.nothingFn

/-- An entry of the prepared builtin table: a plain function, the
stateful stream-aware null test (whose semantics is `builtinIsNull`),
the `undefined` value installed under the name `'undefined'`, or a
member inherited from `Object.prototype` that the property-access
lookup of the special-case table leaks into the prepared table. -/
inductive BEntry where
  | fn (f : List RVal → RVal)
  | isNullEntry
  | undefinedEntry
  | protoMember (name : String)

/-- The member names every plain JavaScript object literal inherits
from `Object.prototype`: a property access `obj[name]` on such an
object yields a value different from `undefined` for each of them. -/
def objectPrototypeMembers : List String :=
  ["constructor", "hasOwnProperty", "isPrototypeOf", "propertyIsEnumerable",
   "toLocaleString", "toString", "valueOf", "__proto__",
   "__defineGetter__", "__defineSetter__", "__lookupGetter__", "__lookupSetter__"]

/-- The special-case lookup `builtinSpecialCases[name]` (runtime.ts,
lines 156-185 and 190): a JavaScript property access on the object
literal whose own keys are `is_null` (the stream-aware null test) and
`display`/`display_list` (`nothingFunction`); for any other name the
access walks the prototype chain, so the members inherited from
`Object.prototype` are also found (and installed verbatim by
`prepareBuiltins`); only the remaining names yield `undefined`. -/
def builtinSpecialCases (name : String) : Option BEntry :=
  if name = "is_null" then some BEntry.isNullEntry
  else if name = "display" then some (BEntry.fn nothingFunction)
  else if name = "display_list" then some (BEntry.fn nothingFunction)
  else if objectPrototypeMembers.contains name then some (BEntry.protoMember name)
  else none

/-- Loop body of `prepareBuiltins` (runtime.ts, lines 189-196): when
the name has a special case install it, otherwise install the wrapper
that shallow-concretizes every argument before invoking the original
builtin. -/
def prepareBuiltinsStep (acc : List (String × BEntry))
    (p : String × (List RVal → RVal)) : List (String × BEntry) :=
  match builtinSpecialCases p.1 with
  | some specialCase => setKV acc p.1 specialCase
  | none => setKV acc p.1 (BEntry.fn (fun args => p.2 (args.map shallowConcretize)))

/-- `prepareBuiltins(oldBuiltins)` (runtime.ts, lines 187-199):
rebuild the builtin table entry by entry, then bind the name
`'undefined'` to the `undefined` value. -/
def prepareBuiltins (oldBuiltins : List (String × (List RVal → RVal))) :
    List (String × BEntry) :=
  setKV (oldBuiltins.foldl prepareBuiltinsStep []) "undefined" BEntry.undefinedEntry

theorem lookupKV_setKV_ne {α : Type} (l : List (String × α)) (k name : String) (v : α)
    (h : (k == name) = false) : lookupKV (setKV l k v) name = lookupKV l name := by
  induction l with
  | nil => simp [setKV, lookupKV, List.find?, h]
  | cons p rest ih =>
    by_cases hp : (p.1 == k) = true
    · have hp' : p.1 = k := by simpa using hp
      simp only [setKV, hp, if_true]
      simp only [lookupKV, List.find?, h]
      have : (p.1 == name) = false := by rw [hp']; exact h
      rw [this]
    · have hp' : (p.1 == k) = false := by simpa using hp
      simp only [setKV, hp', Bool.false_eq_true, if_false]
      simp only [lookupKV, List.find?] at ih ⊢
      cases hn : p.1 == name with
      | true => rfl
      | false => exact ih

theorem lookup_fold_notmem (l : List (String × (List RVal → RVal)))
    (acc : List (String × BEntry)) (name : String)
    (h : ∀ p ∈ l, (p.1 == name) = false) :
    lookupKV (l.foldl prepareBuiltinsStep acc) name = lookupKV acc name := by
  induction l generalizing acc with
  | nil => rfl
  | cons p rest ih =>
    rw [List.foldl_cons, ih _ (fun q hq => h q (List.mem_cons_of_mem p hq))]
    have hp := h p (List.mem_cons_self p rest)
    unfold prepareBuiltinsStep
    cases builtinSpecialCases p.1 with
    | none => exact lookupKV_setKV_ne _ _ _ _ hp
    | some sc => exact lookupKV_setKV_ne _ _ _ _ hp

theorem lookup_fold_found (l : List (String × (List RVal → RVal)))
    (acc : List (String × BEntry)) (name : String) (f : List RVal → RVal)
    (hnd : (l.map Prod.fst).Nodup) (hl : lookupKV l name = some f) :
    lookupKV (l.foldl prepareBuiltinsStep acc) name
      = some (match builtinSpecialCases name with
          | some sc => sc
          | none => BEntry.fn (fun args => f (args.map shallowConcretize))) := by
  induction l generalizing acc with
  | nil => simp [lookupKV] at hl
  | cons p rest ih =>
    rw [List.map_cons, List.nodup_cons] at hnd
    by_cases hp : (p.1 == name) = true
    · have hp' : p.1 = name := by simpa using hp
      have hf : p.2 = f := by
        simp only [lookupKV, List.find?, hp] at hl
        simpa using hl
      have hrest : ∀ q ∈ rest, (q.1 == name) = false := by
        intro q hq
        have : q.1 ∈ rest.map Prod.fst := List.mem_map_of_mem Prod.fst hq
        by_contra hc
        have hq' : q.1 = name := by
          cases hb : q.1 == name with
          | true => simpa using hb
          | false => exact absurd hb hc
        rw [hq', ← hp'] at this
        exact hnd.1 this
      rw [List.foldl_cons, lookup_fold_notmem rest _ name hrest]
      unfold prepareBuiltinsStep
      rw [hp', hf]
      cases builtinSpecialCases name with
      | none => exact lookupKV_setKV_self _ _ _
      | some sc => exact lookupKV_setKV_self _ _ _
    · have hp' : (p.1 == name) = false := by simpa using hp
      have hl' : lookupKV rest name = some f := by
        simp only [lookupKV, List.find?, hp'] at hl ⊢
        exact hl
      rw [List.foldl_cons]
      exact ih _ hnd.2 hl'

/-- Hybrids are well-formed when their concrete layer is not itself a
hybrid (the invariant of the hybrid value model). -/
def RVal.concNotHybrid : RVal → Bool
  | RVal.hybridV conc _ _ _ => !conc.isHybrid
  | _ => true

theorem shallowConcretize_not_hybrid (v : RVal) (h : v.concNotHybrid = true) :
    (shallowConcretize v).isHybrid = false := by
  cases v with
  | hybridV conc symb neg invalid =>
    simp only [RVal.concNotHybrid, Bool.not_eq_true'] at h
    simpa [shallowConcretize] using h
  | hybridArr hd tl => rfl
  | undef => rfl
  | nullV => rfl
  | boolV b => rfl
  | numV n => rfl
  | strV t => rfl
  | pairV hd tl => rfl
  | funV r => rfl
  | nothingFn => rfl

/-- Counterexample to C8 as stated: a builtin table containing the
(non-special-case) name `'undefined'` does not map it to an
argument-concretizing wrapper — `prepareBuiltins` rebinds that name to
the `undefined` value; likewise, a table entry named `'toString'` (a
non-special-case name) is not wrapped either — the property access
`builtinSpecialCases['toString']` finds the member inherited from
`Object.prototype`, which is installed verbatim in place of the
wrapper. -/
theorem prepareBuiltins_undefined_not_wrapped :
    (lookupKV (prepareBuiltins [("undefined", fun _ => RVal.nullV)]) "undefined"
        = some BEntry.undefinedEntry)
    ∧ (¬ ∃ f : List RVal → RVal,
        lookupKV (prepareBuiltins [("undefined", fun _ => RVal.nullV)]) "undefined"
          = some (BEntry.fn f))
    ∧ (lookupKV (prepareBuiltins [("toString", fun _ => RVal.nullV)]) "toString"
        = some (BEntry.protoMember "toString"))
    ∧ (¬ ∃ f : List RVal → RVal,
        lookupKV (prepareBuiltins [("toString", fun _ => RVal.nullV)]) "toString"
          = some (BEntry.fn f)) := by
  have h1 : lookupKV (prepareBuiltins [("undefined", fun _ => RVal.nullV)]) "undefined"
      = some BEntry.undefinedEntry := lookupKV_setKV_self _ _ _
  have h2 : lookupKV (prepareBuiltins [("toString", fun _ => RVal.nullV)]) "toString"
      = some (BEntry.protoMember "toString") := rfl
  refine ⟨h1, ?_, h2, ?_⟩
  · rintro ⟨f, hf⟩
    rw [h1] at hf
    injection hf with h
    exact BEntry.noConfusion h
  · rintro ⟨f, hf⟩
    rw [h2] at hf
    injection hf with h
    exact BEntry.noConfusion h

/-- C8 (amended): for a builtin table with distinct names, every name
other than the special cases (`is_null`, `display`, `display_list`),
the reserved name `'undefined'` (always rebound to the undefined
value), and the member names inherited from `Object.prototype` (which
the property-access lookup of the special-case table finds and
installs verbatim) is mapped to a wrapper that shallow-concretizes
every argument before invoking the original builtin; the special-case
names are replaced entirely by the detector's implementations; a
prototype-member name in the table is bound to the inherited member,
not to a wrapper; and a shallow-concretized argument is never a
hybrid, so builtins never observe symbolic wrappers. -/
theorem prepareBuiltins_spec (old : List (String × (List RVal → RVal)))
    (hnd : (old.map Prod.fst).Nodup) :
    (∀ name f, name ≠ "is_null" → name ≠ "display" → name ≠ "display_list" →
        name ≠ "undefined" → objectPrototypeMembers.contains name = false →
        lookupKV old name = some f →
        lookupKV (prepareBuiltins old) name
          = some (BEntry.fn (fun args => f (args.map shallowConcretize))))
    ∧ (∀ f, lookupKV old "is_null" = some f →
        lookupKV (prepareBuiltins old) "is_null" = some BEntry.isNullEntry)
    ∧ (∀ f, lookupKV old "display" = some f →
        lookupKV (prepareBuiltins old) "display" = some (BEntry.fn nothingFunction))
    ∧ (∀ f, lookupKV old "display_list" = some f →
        lookupKV (prepareBuiltins old) "display_list" = some (BEntry.fn nothingFunction))
    ∧ lookupKV (prepareBuiltins old) "undefined" = some BEntry.undefinedEntry
    ∧ (∀ name f, objectPrototypeMembers.contains name = true → name ≠ "undefined" →
        lookupKV old name = some f →
        lookupKV (prepareBuiltins old) name = some (BEntry.protoMember name))
    ∧ (∀ (args : List RVal) (a : RVal), (∀ x ∈ args, x.concNotHybrid = true) →
        a ∈ args.map shallowConcretize → a.isHybrid = false) := by
  refine ⟨?_, ?_, ?_, ?_, lookupKV_setKV_self _ _ _, ?_, ?_⟩
  · intro name f h1 h2 h3 h4 hproto hl
    have hproto2 : name ∉ objectPrototypeMembers := by simpa using hproto
    have hsc : builtinSpecialCases name = none := by
      simp [builtinSpecialCases, h1, h2, h3, hproto2]
    unfold prepareBuiltins
    rw [lookupKV_setKV_ne _ _ _ _ (by simpa using (Ne.symm h4)),
      lookup_fold_found old [] name f hnd hl, hsc]
  · intro f hl
    unfold prepareBuiltins
    rw [lookupKV_setKV_ne _ _ _ _ (by decide),
      lookup_fold_found old [] _ f hnd hl]
    rfl
  · intro f hl
    unfold prepareBuiltins
    rw [lookupKV_setKV_ne _ _ _ _ (by decide),
      lookup_fold_found old [] _ f hnd hl]
    rfl
  · intro f hl
    unfold prepareBuiltins
    rw [lookupKV_setKV_ne _ _ _ _ (by decide),
      lookup_fold_found old [] _ f hnd hl]
    rfl
  · intro name f hm hne hl
    have hmem : name ∈ objectPrototypeMembers := by simpa using hm
    have h1 : name ≠ "is_null" := by rintro rfl; revert hmem; decide
    have h2 : name ≠ "display" := by rintro rfl; revert hmem; decide
    have h3 : name ≠ "display_list" := by rintro rfl; revert hmem; decide
    have hsc : builtinSpecialCases name = some (BEntry.protoMember name) := by
      simp [builtinSpecialCases, h1, h2, h3, hmem]
    unfold prepareBuiltins
    rw [lookupKV_setKV_ne _ _ _ _ (by simpa using (Ne.symm hne)),
      lookup_fold_found old [] name f hnd hl, hsc]
  · intro args a hwf ha
    rw [List.mem_map] at ha
    obtain ⟨x, hx, rfl⟩ := ha
    exact shallowConcretize_not_hybrid x (hwf x hx)

/-- A two-entry demo builtin table. -/
def demoBuiltins : List (String × (List RVal → RVal)) :=
  [("pair", fun args => RVal.pairV (args.headD RVal.undef) ((args.drop 1).headD RVal.undef)),
   ("display", fun args => args.headD RVal.undef)]

/-- Witness for C8 (amended): in the demo table, `display` is replaced
by the no-op function and `undefined` is bound to the undefined
value. -/
theorem prepareBuiltins_spec_witness :
    lookupKV (prepareBuiltins demoBuiltins) "display" = some (BEntry.fn nothingFunction)
    ∧ lookupKV (prepareBuiltins demoBuiltins) "undefined" = some BEntry.undefinedEntry :=
  ⟨(prepareBuiltins_spec demoBuiltins (by decide)).2.2.1 _ rfl,
    (prepareBuiltins_spec demoBuiltins (by decide)).2.2.2.2.1⟩

/-- Repeatedly call a value: each step invokes the JavaScript function
it denotes; `none` means a call error (callee not a function). -/
def callChain : RVal → Nat → Option RVal
  | v, 0 => some v
  | v, n + 1 =>
    match callFn v with
    | some r => callChain r n
    | none => none

/-- C10: `nothingFunction` is its own fixed point — every call returns
the no-op function itself; the replaced `display` and `display_list`
builtins are that function, so they return the no-op function rather
than their argument, and any chain of further calls on the result
evaluates without error, always yielding the no-op function. -/
theorem nothingFunction_fixed_point :
    (∀ args : List RVal, nothingFunction args = RVal.nothingFn)
    ∧ builtinSpecialCases "display" = some (BEntry.fn nothingFunction)
    ∧ builtinSpecialCases "display_list" = some (BEntry.fn nothingFunction)
    ∧ (∀ v : RVal, v ≠ RVal.nothingFn → nothingFunction [v] ≠ v)
    ∧ (∀ n : Nat, callChain RVal.nothingFn n = some RVal.nothingFn) := by
  refine ⟨fun _ => rfl, rfl, rfl, ?_, ?_⟩
  · intro v hv h
    exact hv h.symm
  · intro n
    induction n with
    | zero => rfl
    | succ m ih => simpa [callChain, callFn] using ih

/-- Witness for C10: displaying the number 42 yields the no-op
function, not 42, and three further calls still yield the no-op
function. -/
theorem nothingFunction_fixed_point_witness :
    nothingFunction [RVal.numV 42] ≠ RVal.numV 42
    ∧ callChain RVal.nothingFn 3 = some RVal.nothingFn :=
  ⟨nothingFunction_fixed_point.2.2.2.1 (RVal.numV 42) (by decide),
    nothingFunction_fixed_point.2.2.2.2 3⟩

/-- `hybridize(originalValue, name, state)` (runtime.ts, lines 22-31):
functions pass through unchanged; a value whose name is pending reset
is deep-concretized first; the result is (re-)hybridized under the
name.  The state is only read (`variablesToReset.has`), never
modified: the hook returns just the value. -/
def hybridize (originalValue : RVal) (name : String) (s : State) : RVal :=
  if originalValue.isFn then originalValue
  else
    let value :=
      if s.variablesToReset.contains name then deepConcretize originalValue
      else originalValue
    hybridizeNamed name value

/-- `saveVarIfHybrid(value, name, state)` (runtime.ts, lines 33-39):
deletes the pending-reset mark for the name, records a hybrid value in
`variablesModified`, and returns the value unchanged. -/
def saveVarIfHybrid (value : RVal) (name : String) (s : State) : RVal × State :=
  let s1 := { s with variablesToReset := s.variablesToReset.filter (fun n => !(n == name)) }
  if value.isHybrid then
    (value, { s1 with variablesModified := setKV s1.variablesModified name value })
  else (value, s1)

theorem contains_filter_ne (l : List String) (name : String) :
    (l.filter (fun n => !(n == name))).contains name = false := by
  induction l with
  | nil => rfl
  | cons a rest ih =>
    by_cases h : (a == name) = true
    · rw [List.filter_cons]
      simp only [h, Bool.not_true, Bool.false_eq_true, if_false]
      exact ih
    · have h' : (a == name) = false := by simpa using h
      have hne : (name == a) = false := by
        have hna : ¬ a = name := by simpa using h'
        have hna' : ¬ name = a := fun hc => hna hc.symm
        simpa using hna'
      have hfilter : List.filter (fun n => !(n == name)) (a :: rest)
          = a :: List.filter (fun n => !(n == name)) rest := by
        simp [List.filter_cons, h']
      rw [hfilter, List.contains_cons, hne, Bool.false_or]
      exact ih

/-- C6: on a variable read `hybridize(v, name, state)`: a function is
returned unchanged (never hybridized); otherwise, if the name is
pending reset, the value is first deep-concretized and then
re-hybridized under the name; otherwise an existing hybrid is returned
as is. -/
theorem hybridize_spec (v : RVal) (name : String) (s : State) :
    (v.isFn = true → hybridize v name s = v)
    ∧ (v.isFn = false → s.variablesToReset.contains name = true →
        hybridize v name s = hybridizeNamed name (deepConcretize v))
    ∧ (v.isFn = false → s.variablesToReset.contains name = false → v.isHybrid = true →
        hybridize v name s = v) := by
  refine ⟨?_, ?_, ?_⟩
  · intro hfn
    simp [hybridize, hfn]
  · intro hfn hpend
    have hmem : name ∈ s.variablesToReset := by simpa using hpend
    simp [hybridize, hfn, hmem]
  · intro hfn hpend hhyb
    simp only [hybridize, hfn, Bool.false_eq_true, if_false, hpend]
    cases v with
    | hybridV conc symb neg invalid => rfl
    | hybridArr hd tl => rfl
    | undef => rfl
    | nullV => simp [RVal.isHybrid] at hhyb
    | boolV b => simp [RVal.isHybrid] at hhyb
    | numV n => simp [RVal.isHybrid] at hhyb
    | strV t => simp [RVal.isHybrid] at hhyb
    | pairV hd tl => simp [RVal.isHybrid] at hhyb
    | funV r => simp [RVal.isHybrid] at hhyb
    | nothingFn => simp [RVal.isHybrid] at hhyb

/-- Witness for C6: reading pending-reset `"x"` holding a stale hybrid
deep-concretizes it and re-hybridizes it under `"x"`. -/
theorem hybridize_spec_witness :
    hybridize
        (RVal.hybridV (RVal.numV 5)
          (SymExpr.binary "+" (SymExpr.identifier "x") (SymExpr.literal (LitVal.num 1)))
          none false)
        "x" { mkState 2 5 with variablesToReset := ["x"] }
      = RVal.hybridV (RVal.numV 5) (SymExpr.identifier "x") none false :=
  (hybridize_spec
      (RVal.hybridV (RVal.numV 5)
        (SymExpr.binary "+" (SymExpr.identifier "x") (SymExpr.literal (LitVal.num 1)))
        none false)
      "x" { mkState 2 5 with variablesToReset := ["x"] }).2.1 rfl rfl

/-- A state with variable `"x"` marked pending reset. -/
def pendingState : State := { mkState 2 5 with variablesToReset := ["x"] }

/-- A hybrid value for `"x"` whose symbolic expression records the
derivation `x + 1`. -/
def derivedHybrid : RVal :=
  RVal.hybridV (RVal.numV 5)
    (SymExpr.binary "+" (SymExpr.identifier "x") (SymExpr.literal (LitVal.num 1)))
    none false

/-- Counterexample to C7 as stated: the read hook `hybridize` returns
only a value and leaves the state untouched, so a read of a marked
variable cannot remove the name from the pending-reset set — the
marking persists and every read while it stands performs the reset
(the result differs from the existing hybrid, whose recorded
derivation is discarded); the name is removed only by the write hook
`saveVarIfHybrid`. -/
theorem hybridize_does_not_clear_pending :
    pendingState.variablesToReset.contains "x" = true
    ∧ hybridize derivedHybrid "x" pendingState
        = RVal.hybridV (RVal.numV 5) (SymExpr.identifier "x") none false
    ∧ hybridize derivedHybrid "x" pendingState ≠ derivedHybrid
    ∧ (saveVarIfHybrid (RVal.numV 7) "x" pendingState).2.variablesToReset.contains "x"
        = false := by
  exact ⟨by decide, by decide, by decide, by decide⟩

/-- C7 (amended): the pending-reset marking is cleared on a variable
write (`saveVarIfHybrid`), not on a read: reads never modify the
pending-reset set, so while a name stays marked every read of it
performs the deep-concretize-and-re-hybridize reset, and once the
marking is cleared reads return the existing hybrid unchanged. -/
theorem pending_reset_cleared_on_write (v w : RVal) (name : String) (s : State) :
    ((saveVarIfHybrid w name s).2.variablesToReset.contains name = false)
    ∧ (v.isFn = false → s.variablesToReset.contains name = true →
        hybridize v name s = hybridizeNamed name (deepConcretize v))
    ∧ (s.variablesToReset.contains name = false → v.isHybrid = true →
        hybridize v name s = v) := by
  refine ⟨?_, ?_, ?_⟩
  · unfold saveVarIfHybrid
    by_cases hh : w.isHybrid
    · simp only [hh, if_true]
      exact contains_filter_ne _ _
    · have hh' : w.isHybrid = false := by simpa using hh
      simp only [hh', Bool.false_eq_true, if_false]
      exact contains_filter_ne _ _
  · intro hfn hpend
    have hmem : name ∈ s.variablesToReset := by simpa using hpend
    simp [hybridize, hfn, hmem]
  · intro hpend hhyb
    have hfn : v.isFn = false := by
      cases v <;> simp_all [RVal.isFn, RVal.isHybrid]
    simp only [hybridize, hfn, Bool.false_eq_true, if_false, hpend]
    cases v with
    | hybridV conc symb neg invalid => rfl
    | hybridArr hd tl => rfl
    | undef => rfl
    | nullV => simp [RVal.isHybrid] at hhyb
    | boolV b => simp [RVal.isHybrid] at hhyb
    | numV n => simp [RVal.isHybrid] at hhyb
    | strV t => simp [RVal.isHybrid] at hhyb
    | pairV hd tl => simp [RVal.isHybrid] at hhyb
    | funV r => simp [RVal.isHybrid] at hhyb
    | nothingFn => simp [RVal.isHybrid] at hhyb

/-- Witness for the amended C7: a write to marked `"y"` clears the
marking. -/
theorem pending_reset_cleared_on_write_witness :
    (saveVarIfHybrid (RVal.numV 7) "y"
        { mkState 2 5 with variablesToReset := ["y"] }).2.variablesToReset.contains "y"
      = false :=
  (pending_reset_cleared_on_write (RVal.numV 0) (RVal.numV 7) "y"
    { mkState 2 5 with variablesToReset := ["y"] }).1

/-- `checkTimeout(state)` (runtime.ts, lines 11-15): throw
`Error('timeout')` once the cooperative budget is exceeded. -/
def checkTimeout (s : State) : Except RtError Unit :=
  if s.timedOut then Except.error (RtError.plainError "timeout") else Except.ok ()

/-- Modelled from the spec: `state.cleanUpVariables()` marks every
tracked variable name as pending reset; the ghost counter `cleanUps`
records the invocation. -/
def State.cleanUpVariables (s : State) : State :=
  { s with
      variablesToReset := s.variablesModified.map Prod.fst ++ s.variablesToReset
      cleanUps := s.cleanUps + 1 }

/-- Modelled from the spec: `state.newStackFrame()` captures the
current variable snapshot at a fresh stack position and returns that
position. -/
def State.newStackFrame (s : State) : Nat × State :=
  (s.stackFrameCounter, { s with stackFrameCounter := s.stackFrameCounter + 1 })

/-- Modelled from the spec: `state.enterFunction(name)` looks up or
creates the tracker for the name, reports whether this is the first
recorded invocation in this run, and pushes the name on the
active-function stack. -/
def State.enterFunction (s : State) (name : String) : (List Nat × Bool) × State :=
  let s1 := { s with functionNameStack := name :: s.functionNameStack }
  match lookupKV s.functionTrackers name with
  | some tracker => ((tracker, false), s1)
  | none => (([], true), { s1 with functionTrackers := setKV s1.functionTrackers name [] })

/-- Modelled from the spec: `state.saveArgsInTransition(args,
tracker)` records the function's arguments into the most recent prior
stack frame of the tracker; the invocation is recorded in the ghost
`transitionLog`. -/
def State.saveArgsInTransition (s : State) (args : List (String × RVal))
    (tracker : List Nat) : State :=
  { s with transitionLog := (args, tracker) :: s.transitionLog }

/-- `tracker.push(frame)`: append the fresh frame to the named
function's tracker. -/
def State.pushTrackerFrame (s : State) (name : String) (frame : Nat) : State :=
  let tr := (lookupKV s.functionTrackers name).getD []
  { s with functionTrackers := setKV s.functionTrackers name (tr ++ [frame]) }

/-- `preFunction(name, args, state)` (runtime.ts, lines 77-94): check
the timeout; choose the tracker name (prefixed with `*` when the
function value was passed as an argument); enter the function; when
this is not the first recorded invocation, clean up variables, record
the arguments in transition and — unless passed-as-argument — run the
dispatch policy over the tracker minus its most recent frame; then
push a fresh stack frame and clear the passed-as-argument flag. -/
def preFunction (name : String) (args : List (String × RVal)) (s : State) :
    Except RtError Unit × State :=
  match checkTimeout s with
  | Except.error e => (Except.error e, s)
  | Except.ok _ =>
    let newName := if s.functionWasPassedAsArgument then "*" ++ name else name
    match s.enterFunction newName with
    | ((tracker, firstIteration), s1) =>
      let afterDispatch : Except RtError Unit × State :=
        if firstIteration then (Except.ok (), s1)
        else
          let s2 := s1.cleanUpVariables
          let s3 := s2.saveArgsInTransition args tracker
          if s3.functionWasPassedAsArgument then (Except.ok (), s3)
          else dispatchIfMeetsThreshold tracker.dropLast s3 (some name)
      match afterDispatch with
      | (Except.error e, s4) => (Except.error e, s4)
      | (Except.ok _, s4) =>
        match s4.newStackFrame with
        | (frame, s5) =>
          (Except.ok (),
            { s5.pushTrackerFrame newName frame with functionWasPassedAsArgument := false })

theorem dispatchGo_preserves (fuel : Nat) (sp : List Nat) (fname : Option String)
    (cp : Nat) (s : State) :
    (dispatchGo fuel sp fname cp s).2.dispatchLog = s.dispatchLog
    ∧ (dispatchGo fuel sp fname cp s).2.cleanUps = s.cleanUps
    ∧ (dispatchGo fuel sp fname cp s).2.transitionLog = s.transitionLog
    ∧ (dispatchGo fuel sp fname cp s).2.stackFrameCounter = s.stackFrameCounter
    ∧ (dispatchGo fuel sp fname cp s).2.functionTrackers = s.functionTrackers
    ∧ (dispatchGo fuel sp fname cp s).2.functionWasPassedAsArgument
        = s.functionWasPassedAsArgument := by
  induction fuel generalizing cp s with
  | zero => exact ⟨rfl, rfl, rfl, rfl, rfl, rfl⟩
  | succ n ih =>
    simp only [dispatchGo]
    by_cases hle : cp ≤ sp.length
    · rw [if_pos hle]
      by_cases heq : sp.length = cp
      · rw [if_pos heq]
        unfold checkForInfiniteLoop
        by_cases hv : s.detectVerdict sp fname
        · simp only [hv, if_true]
          refine ⟨?_, ?_, ?_, ?_, ?_, ?_⟩ <;> trivial
        · simp only [hv, Bool.false_eq_true, if_false]
          exact ih (cp * 2) { s with checkLog := (sp, fname) :: s.checkLog }
      · rw [if_neg heq]
        exact ih (cp * 2) s
    · rw [if_neg hle]
      exact ⟨rfl, rfl, rfl, rfl, rfl, rfl⟩

theorem dispatch_preserves (sp : List Nat) (s : State) (fname : Option String) :
    (dispatchIfMeetsThreshold sp s fname).2.dispatchLog = (sp, fname) :: s.dispatchLog
    ∧ (dispatchIfMeetsThreshold sp s fname).2.cleanUps = s.cleanUps
    ∧ (dispatchIfMeetsThreshold sp s fname).2.transitionLog = s.transitionLog
    ∧ (dispatchIfMeetsThreshold sp s fname).2.stackFrameCounter = s.stackFrameCounter
    ∧ (dispatchIfMeetsThreshold sp s fname).2.functionTrackers = s.functionTrackers
    ∧ (dispatchIfMeetsThreshold sp s fname).2.functionWasPassedAsArgument
        = s.functionWasPassedAsArgument := by
  unfold dispatchIfMeetsThreshold
  exact dispatchGo_preserves _ _ _ _ _

/-- C5: `preFunction(name, args, state)`: when the function value was
passed as an argument, the invocation is tracked under `'*' + name`
and the dispatch policy is not invoked (the policy and check logs are
untouched); otherwise, on a non-first invocation (the tracker already
exists), the timeout is checked (a timed-out state makes the call
throw immediately), variables are cleaned up, the arguments are
recorded in transition with the tracker, and the dispatch policy is
invoked over the tracker minus its most recent frame; whenever
`preFunction` returns normally, a fresh stack frame has been appended
to the tracker under the chosen name and
`state.functionWasPassedAsArgument` is `false`. -/
theorem preFunction_spec (name : String) (args : List (String × RVal)) (s : State) :
    (s.timedOut = true →
        preFunction name args s = (Except.error (RtError.plainError "timeout"), s))
    ∧ (s.timedOut = false → s.functionWasPassedAsArgument = true →
        (preFunction name args s).1 = Except.ok ()
        ∧ (preFunction name args s).2.dispatchLog = s.dispatchLog
        ∧ (preFunction name args s).2.checkLog = s.checkLog)
    ∧ (s.timedOut = false → s.functionWasPassedAsArgument = false →
        ∀ tracker, lookupKV s.functionTrackers name = some tracker →
        (preFunction name args s).2.cleanUps = s.cleanUps + 1
        ∧ (preFunction name args s).2.transitionLog = (args, tracker) :: s.transitionLog
        ∧ (preFunction name args s).2.dispatchLog
            = (tracker.dropLast, some name) :: s.dispatchLog)
    ∧ (∀ s', preFunction name args s = (Except.ok (), s') →
        s'.functionWasPassedAsArgument = false
        ∧ lookupKV s'.functionTrackers
              (if s.functionWasPassedAsArgument then "*" ++ name else name)
            = some ((lookupKV s.functionTrackers
                  (if s.functionWasPassedAsArgument then "*" ++ name else name)).getD []
                ++ [s.stackFrameCounter])) := by
  cases ht : s.timedOut with
  | true =>
    have hpf : preFunction name args s
        = (Except.error (RtError.plainError "timeout"), s) := by
      simp only [preFunction, checkTimeout, ht, if_true]
    refine ⟨fun _ => hpf, ?_, ?_, ?_⟩
    · intro h1 _
      exact Bool.noConfusion h1
    · intro h1
      exact Bool.noConfusion h1
    · intro s' h
      rw [hpf] at h
      have h1 := congrArg Prod.fst h
      simp at h1
  | false =>
    cases hf : s.functionWasPassedAsArgument with
    | true =>
      have hifT : (if (true : Bool) = true then "*" ++ name else name) = "*" ++ name :=
        if_pos rfl
      cases hlk : lookupKV s.functionTrackers ("*" ++ name) with
      | none =>
        have hpf : preFunction name args s
            = (Except.ok (),
                { s with
                    functionNameStack := ("*" ++ name) :: s.functionNameStack
                    functionTrackers :=
                      setKV
                        (setKV s.functionTrackers ("*" ++ name) [])
                        ("*" ++ name)
                        ((lookupKV (setKV s.functionTrackers ("*" ++ name) [])
                            ("*" ++ name)).getD [] ++ [s.stackFrameCounter])
                    stackFrameCounter := s.stackFrameCounter + 1
                    functionWasPassedAsArgument := false }) := by
          simp only [preFunction, checkTimeout, ht, Bool.false_eq_true, if_false, hf,
            if_true, State.enterFunction, hlk, State.newStackFrame,
            State.pushTrackerFrame]
        refine ⟨?_, ?_, ?_, ?_⟩
        · intro h1
          exact Bool.noConfusion h1
        · intro _ _
          rw [hpf]
          exact ⟨rfl, rfl, rfl⟩
        · intro _ h1
          exact Bool.noConfusion h1
        · intro s' h
          rw [hpf] at h
          have h2 := congrArg Prod.snd h
          simp only at h2
          subst h2
          refine ⟨rfl, ?_⟩
          rw [hifT, lookupKV_setKV_self, lookupKV_setKV_self, hlk]
          rfl
      | some tr =>
        have hpf : preFunction name args s
            = (Except.ok (),
                { s with
                    functionNameStack := ("*" ++ name) :: s.functionNameStack
                    variablesToReset :=
                      s.variablesModified.map Prod.fst ++ s.variablesToReset
                    cleanUps := s.cleanUps + 1
                    transitionLog := (args, tr) :: s.transitionLog
                    functionTrackers :=
                      setKV s.functionTrackers ("*" ++ name)
                        ((lookupKV s.functionTrackers ("*" ++ name)).getD []
                          ++ [s.stackFrameCounter])
                    stackFrameCounter := s.stackFrameCounter + 1
                    functionWasPassedAsArgument := false }) := by
          simp only [preFunction, checkTimeout, ht, Bool.false_eq_true, if_false, hf,
            if_true, State.enterFunction, hlk, State.cleanUpVariables,
            State.saveArgsInTransition, State.newStackFrame, State.pushTrackerFrame]
        refine ⟨?_, ?_, ?_, ?_⟩
        · intro h1
          exact Bool.noConfusion h1
        · intro _ _
          rw [hpf]
          exact ⟨rfl, rfl, rfl⟩
        · intro _ h1
          exact Bool.noConfusion h1
        · intro s' h
          rw [hpf] at h
          have h2 := congrArg Prod.snd h
          simp only at h2
          subst h2
          refine ⟨rfl, ?_⟩
          rw [hifT, lookupKV_setKV_self]
    | false =>
      have hifF : (if (false : Bool) = true then "*" ++ name else name) = name :=
        if_neg (fun hc => Bool.noConfusion hc)
      cases hlk : lookupKV s.functionTrackers name with
      | none =>
        have hpf : preFunction name args s
            = (Except.ok (),
                { s with
                    functionNameStack := name :: s.functionNameStack
                    functionTrackers :=
                      setKV
                        (setKV s.functionTrackers name [])
                        name
                        ((lookupKV (setKV s.functionTrackers name []) name).getD []
                          ++ [s.stackFrameCounter])
                    stackFrameCounter := s.stackFrameCounter + 1
                    functionWasPassedAsArgument := false }) := by
          simp only [preFunction, checkTimeout, ht, Bool.false_eq_true, if_false, hf,
            if_true, State.enterFunction, hlk, State.newStackFrame,
            State.pushTrackerFrame]
        refine ⟨?_, ?_, ?_, ?_⟩
        · intro h1
          exact Bool.noConfusion h1
        · intro _ h1
          exact Bool.noConfusion h1
        · intro _ _ tracker h1
          exact Option.noConfusion h1
        · intro s' h
          rw [hpf] at h
          have h2 := congrArg Prod.snd h
          simp only at h2
          subst h2
          refine ⟨rfl, ?_⟩
          rw [hifF, lookupKV_setKV_self, lookupKV_setKV_self, hlk]
          rfl
      | some tr =>
        obtain ⟨hdl, hcu, htl, hsfc, hft, hfw⟩ :=
          dispatch_preserves tr.dropLast
            { s with
                functionNameStack := name :: s.functionNameStack
                variablesToReset :=
                  s.variablesModified.map Prod.fst ++ s.variablesToReset
                cleanUps := s.cleanUps + 1
                transitionLog := (args, tr) :: s.transitionLog } (some name)
        have hpf : preFunction name args s
            = (match dispatchIfMeetsThreshold tr.dropLast
                  { s with
                      functionNameStack := name :: s.functionNameStack
                      variablesToReset :=
                        s.variablesModified.map Prod.fst ++ s.variablesToReset
                      cleanUps := s.cleanUps + 1
                      transitionLog := (args, tr) :: s.transitionLog } (some name) with
                | (Except.error e, s4) => (Except.error e, s4)
                | (Except.ok _, s4) =>
                  (Except.ok (),
                    { s4 with
                        functionTrackers :=
                          setKV s4.functionTrackers name
                            ((lookupKV s4.functionTrackers name).getD []
                              ++ [s4.stackFrameCounter])
                        stackFrameCounter := s4.stackFrameCounter + 1
                        functionWasPassedAsArgument := false })) := by
          simp only [preFunction, checkTimeout, ht, Bool.false_eq_true, if_false, hf,
            if_true, State.enterFunction, hlk, State.cleanUpVariables,
            State.saveArgsInTransition, State.newStackFrame, State.pushTrackerFrame]
        cases hdisp : dispatchIfMeetsThreshold tr.dropLast
            { s with
                functionNameStack := name :: s.functionNameStack
                variablesToReset :=
                  s.variablesModified.map Prod.fst ++ s.variablesToReset
                cleanUps := s.cleanUps + 1
                transitionLog := (args, tr) :: s.transitionLog } (some name) with
        | mk r s4 =>
          rw [hdisp] at hpf hdl hcu htl hsfc hft hfw
          have hdl2 : s4.dispatchLog = (tr.dropLast, some name) :: s.dispatchLog := hdl
          have hcu2 : s4.cleanUps = s.cleanUps + 1 := hcu
          have htl2 : s4.transitionLog = (args, tr) :: s.transitionLog := htl
          have hsfc2 : s4.stackFrameCounter = s.stackFrameCounter := hsfc
          have hft2 : s4.functionTrackers = s.functionTrackers := hft
          cases r with
          | error e =>
            simp only at hpf
            refine ⟨?_, ?_, ?_, ?_⟩
            · intro h1
              exact Bool.noConfusion h1
            · intro _ h1
              exact Bool.noConfusion h1
            · intro _ _ tracker h1
              obtain rfl : tr = tracker := Option.some.inj h1
              rw [hpf]
              exact ⟨hcu2, htl2, hdl2⟩
            · intro s' h
              rw [hpf] at h
              have h1 := congrArg Prod.fst h
              simp at h1
          | ok u =>
            cases u
            simp only at hpf
            refine ⟨?_, ?_, ?_, ?_⟩
            · intro h1
              exact Bool.noConfusion h1
            · intro _ h1
              exact Bool.noConfusion h1
            · intro _ _ tracker h1
              obtain rfl : tr = tracker := Option.some.inj h1
              rw [hpf]
              exact ⟨hcu2, htl2, hdl2⟩
            · intro s' h
              rw [hpf] at h
              have h2 := congrArg Prod.snd h
              simp only at h2
              subst h2
              refine ⟨rfl, ?_⟩
              rw [hifF, hft2, hsfc2, hlk, lookupKV_setKV_self]

/-- A concrete state in which function `"f"` has one prior recorded
invocation. -/
def preState : State :=
  { mkState 2 5 with functionTrackers := [("f", [0])], stackFrameCounter := 1 }

/-- Witness for C5: re-entering `"f"` invokes the dispatch policy over
the prior invocations minus the most recent frame and performs one
variable clean-up. -/
theorem preFunction_spec_witness :
    (preFunction "f" [] preState).2.dispatchLog = [([], some "f")]
    ∧ (preFunction "f" [] preState).2.cleanUps = 1 :=
  ⟨((preFunction_spec "f" [] preState).2.2.1 rfl rfl [0] rfl).2.2,
    ((preFunction_spec "f" [] preState).2.2.1 rfl rfl [0] rfl).1⟩

/-- The catch logic of `testForInfiniteLoop` (runtime.ts, lines
250-262): the sandboxed run of the instrumented program either
completes normally or throws; an `InfiniteLoopError` is returned as
the diagnostic, with its location replaced by the state's most
recently tracked location when one exists; every other error —
including the plain `Error('timeout')` raised by `checkTimeout` and
`testIfInfiniteStream` — falls through the `instanceof` test and the
driver returns `undefined`, as after normal completion. -/
def testForInfiniteLoopResult (outcome : Except RtError Unit) (s : State) :
    Option RtError :=
  match outcome with
  | Except.ok _ => none
  | Except.error e =>
    match e with
    | RtError.infiniteLoopError msg loc =>
      match s.lastLocation with
      | some l => some (RtError.infiniteLoopError msg (some l))
      | none => some (RtError.infiniteLoopError msg loc)
    | RtError.plainError _ => none

/-- Counterexample to C2 as stated: an internal timeout — the plain
`Error('timeout')` raised by `checkTimeout` — is not an
`InfiniteLoopError`, so the driver swallows it and returns `undefined`
(`none`), which is exactly the no-detection result: no diagnostic is
returned and the TimeoutExceeded outcome is not distinguishable from
no detection. -/
theorem timeout_swallowed_by_driver :
    testForInfiniteLoopResult (Except.error (RtError.plainError "timeout"))
        { mkState 2 5 with lastLocation := some 7 } = none
    ∧ testForInfiniteLoopResult (Except.ok ())
        { mkState 2 5 with lastLocation := some 7 } = none :=
  ⟨rfl, rfl⟩

/-- C2 (amended): the driver returns a diagnostic exactly when the
instrumented run raised an `InfiniteLoopError` (a non-termination
signal), substituting the most recently tracked source location when
one was tracked; normal completion and any other raised error —
including the internal plain timeout error — yield `undefined`, so a
timeout is reported identically to the no-detection result rather
than as a distinct signal. -/
theorem testForInfiniteLoop_result_spec (outcome : Except RtError Unit) (s : State) :
    (∀ msg loc, outcome = Except.error (RtError.infiniteLoopError msg loc) →
        testForInfiniteLoopResult outcome s
          = some (RtError.infiniteLoopError msg
              (match s.lastLocation with
                | some l => some l
                | none => loc)))
    ∧ (outcome = Except.ok () → testForInfiniteLoopResult outcome s = none)
    ∧ (∀ msg, outcome = Except.error (RtError.plainError msg) →
        testForInfiniteLoopResult outcome s = none) := by
  refine ⟨?_, ?_, ?_⟩
  · rintro msg loc rfl
    cases hll : s.lastLocation with
    | none => simp only [testForInfiniteLoopResult, hll]
    | some l => simp only [testForInfiniteLoopResult, hll]
  · rintro rfl
    rfl
  · rintro msg rfl
    rfl

/-- Witness for the amended C2: a raised InfiniteLoopError comes back
as a diagnostic carrying the tracked location 7. -/
theorem testForInfiniteLoop_result_spec_witness :
    testForInfiniteLoopResult
        (Except.error (RtError.infiniteLoopError "infinite loop" none))
        { mkState 2 5 with lastLocation := some 7 }
      = some (RtError.infiniteLoopError "infinite loop" (some 7)) :=
  (testForInfiniteLoop_result_spec
      (Except.error (RtError.infiniteLoopError "infinite loop" none))
      { mkState 2 5 with lastLocation := some 7 }).1 "infinite loop" none rfl

end JsSlang
